import Mathlib

/-!
Shallow embedding of the BB84 simulator (`bb84_simulator.py`) and the quantum
device testbed (`quantum_device.py`).

Modelling conventions:
* Python strings of protocol symbols become `List Char`; floats become `ℚ`
  (float literals such as `0.2`, `0.11`, `0.3` are taken at their decimal
  value).
* `random.random()`, `random.randint(0, 1)` and `random.choice(['+', 'x'])`
  draws are supplied as oracle streams (`ℕ → ℚ` resp. `ℕ → Bool`), indexed by
  draw position, so every theorem quantifies over all possible random
  outcomes.
* Log entries are modelled structurally (constructor plus the numeric or
  string payload of the message); wall-clock timestamps and the decimal
  formatting of messages are not modelled.
-/

namespace BB84

/-- Number of mismatched positions between two keys, compared pairwise over
the zipped common prefix.  This is the sum
`sum(1 for a, b in zip(a_key, b_key) if a != b)` computed both in
`calculate_qber` (bb84_simulator.py line 164) and in
`error_correction_cascade` (line 174). -/
def countMismatches (aKey bKey : List Char) : ℕ :=
  ((aKey.zip bKey).filter (fun p => decide (p.1 ≠ p.2))).length

/-- `BB84Simulator.calculate_qber` (bb84_simulator.py lines 159-165): returns
`1.0` when either key is empty, otherwise mismatches divided by
`len(alice_key)`. -/
def calculate_qber (aliceKey bobKey : List Char) : ℚ :=
  if aliceKey.length = 0 ∨ bobKey.length = 0 then 1
  else (countMismatches aliceKey bobKey : ℚ) / (aliceKey.length : ℚ)

/-- `BB84Simulator.sift_keys` (bb84_simulator.py lines 147-157): iterates
`zip(alice_bits, alice_bases, bob_bits, bob_bases)` (truncating at the
shortest input) and keeps a position iff the bases agree and Bob's bit was
detected (`!= '?'`). -/
def sift_keys : List Char → List Char → List Char → List Char → List Char × List Char
  | aBit :: aBits, aBasis :: aBases, bBit :: bBits, bBasis :: bBases =>
    let r := sift_keys aBits aBases bBits bBases
    if aBasis = bBasis ∧ bBit ≠ '?' then (aBit :: r.1, bBit :: r.2) else r
  | _, _, _, _ => ([], [])

/-- Indices the sifter keeps, in increasing order, among the first `n`
positions: written from the specification's words ("Keeps position i iff
`a_bases[i] == b_bases[i]` AND `b_bits[i] != '?'`.  Order preserved."). -/
def siftIndices (aBases bBits bBases : List Char) (n : ℕ) : List ℕ :=
  (List.range n).filter
    (fun i => decide (aBases.getD i ' ' = bBases.getD i ' ' ∧ bBits.getD i ' ' ≠ '?'))

/-- Specification-side description of the sifter: the kept indices (among the
common length of the four inputs) mapped back to Alice's resp. Bob's bits.
Written from the spec's words, to be compared with `sift_keys`. -/
def siftSpec (aBits aBases bBits bBases : List Char) : List Char × List Char :=
  let n := min (min aBits.length aBases.length) (min bBits.length bBases.length)
  ((siftIndices aBases bBits bBases n).map (fun i => aBits.getD i ' '),
   (siftIndices aBases bBits bBases n).map (fun i => bBits.getD i ' '))

/-- `BB84Simulator.error_correction_cascade` (bb84_simulator.py lines
167-180): counts the mismatches, returns Alice's key unchanged, and replaces
Bob's key by Alice's whenever Alice's key is non-empty. -/
def error_correction_cascade (aliceKey bobKey : List Char) :
    List Char × List Char × ℕ :=
  (aliceKey,
   if 0 < aliceKey.length then aliceKey else bobKey,
   countMismatches aliceKey bobKey)

/-- Python's `int()` applied to a rational value: truncation toward zero. -/
def pyInt (q : ℚ) : ℤ := if 0 ≤ q then ⌊q⌋ else ⌈q⌉

/-- `BB84Simulator.privacy_amplification` (bb84_simulator.py lines 182-189):
empty key maps to the empty key, otherwise the key is cut down to its first
`max(1, int(len(key) * amplification_factor))` symbols. -/
def privacy_amplification (key : List Char) (factor : ℚ) : List Char :=
  if key.length = 0 then []
  else key.take (max 1 (pyInt ((key.length : ℚ) * factor))).toNat

-- ### Channel model

/-- Bit flip `str(1 - int(bit))` (bb84_simulator.py line 70).  The callers
only ever feed `'0'`/`'1'` into this branch (`int` would raise otherwise). -/
def flipBit (c : Char) : Char := if c = '0' then '1' else '0'

/-- Loss probability `min(0.2 * (distance / 100) + noise, 0.8)` of
`apply_channel_effects` (bb84_simulator.py line 59). -/
def lossProbability (distance noise : ℚ) : ℚ :=
  min (2/10 * (distance / 100) + noise) (8/10)

/-- The per-symbol loop of `apply_channel_effects` (bb84_simulator.py lines
64-74).  `rand` is the stream of `random.random()` draws and `k` the index of
the next unconsumed draw: a lost symbol consumes one draw, any other symbol
consumes two (the `elif` draws again only when the symbol was not lost).
Returns the received symbols and the number of flips counted as errors. -/
def channelLoop (lossP noise : ℚ) (rand : ℕ → ℚ) :
    List Char → ℕ → List Char × ℕ
  | [], _ => ([], 0)
  | bit :: rest, k =>
    if rand k < lossP then
      let r := channelLoop lossP noise rand rest (k + 1)
      ('?' :: r.1, r.2)
    else if rand (k + 1) < noise then
      let r := channelLoop lossP noise rand rest (k + 2)
      (flipBit bit :: r.1, r.2 + 1)
    else
      let r := channelLoop lossP noise rand rest (k + 2)
      (bit :: r.1, r.2)

/-- `BB84Simulator.apply_channel_effects` (bb84_simulator.py lines 56-77):
returns the received sequence and
`error_rate = errors / len(bits) if len(bits) > 0 else 0`. -/
def apply_channel_effects (bits : List Char) (distance noise : ℚ)
    (rand : ℕ → ℚ) : List Char × ℚ :=
  let r := channelLoop (lossProbability distance noise) noise rand bits 0
  (r.1, if 0 < bits.length then (r.2 : ℚ) / (bits.length : ℚ) else 0)

-- ### Random generation

/-- `BB84Simulator.generate_random_bits(n, 'classical')` (bb84_simulator.py
line 39): the `i`-th `random.randint(0, 1)` draw is supplied by `draw i`. -/
def generate_random_bits (n : ℕ) (draw : ℕ → Bool) : List Char :=
  (List.range n).map (fun i => if draw i then '1' else '0')

/-- `BB84Simulator.generate_random_bases` (bb84_simulator.py lines 51-54):
the `i`-th `random.choice(['+', 'x'])` draw is supplied by `draw i`. -/
def generate_random_bases (n : ℕ) (draw : ℕ → Bool) : List Char :=
  (List.range n).map (fun i => if draw i then '+' else 'x')

-- ### Eavesdropper

/-- `BB84Simulator.simulate_eve_attack` (bb84_simulator.py lines 121-145).
`'none'` is a pass-through; `'intercept_resend'` draws Eve's bases
(`eveBasisDraw`) and, position by position over
`zip(alice_bits, alice_bases, eve_bases)`, forwards the incoming symbol when
Eve's basis matches and otherwise a fresh `random.randint(0, 1)` bit
(`eveBitDraw`); any other attack string leaves the initial empty strings.
Eve's bases list has the same length as `alice_bits`, so the zipped loop,
written here as a map over positions, runs over
`min (len alice_bits) (len alice_bases)` positions. -/
def simulate_eve_attack (aliceBits aliceBases : List Char) (attackType : String)
    (eveBasisDraw eveBitDraw : ℕ → Bool) : List Char × List Char × ℚ :=
  if attackType = "none" then (aliceBits, aliceBases, 0)
  else if attackType = "intercept_resend" then
    let eveBases := generate_random_bases aliceBits.length eveBasisDraw
    ((List.range (min aliceBits.length aliceBases.length)).map (fun i =>
        if aliceBases.getD i ' ' = eveBases.getD i ' ' then aliceBits.getD i ' '
        else if eveBitDraw i then '1' else '0'),
     eveBases, 1/4)
  else ([], [], 0)

-- ### Security predicates

/-- `self.qber_threshold = 0.11` (bb84_simulator.py line 25). -/
def qber_threshold : ℚ := 11/100

/-- The simulator's verdict `qber < self.qber_threshold`
(bb84_simulator.py line 319). -/
def simulatorIsSecure (q : ℚ) : Bool := decide (q < qber_threshold)

/-- The lab testbed's verdict `qber < 0.11` (quantum_device.py line 262). -/
def deviceIsSecure (q : ℚ) : Bool := decide (q < 11/100)

/-- The mobile path's verdict `qber < 0.11` (quantum_device.py line 410). -/
def mobileIsSecure (q : ℚ) : Bool := decide (q < 11/100)

-- ### Mobile measurement processing

/-- Structural model of a `QuantumDeviceTestbed.log_message` entry on the
mobile path (timestamp and severity formattings not modelled). -/
inductive MLog where
  | processingFrom (deviceId : String)
  | receivedMeasurements (n : ℕ)
  | processingFailed (msg : String)
  deriving DecidableEq

/-- The slice of the record returned by
`QuantumDeviceTestbed.process_mobile_data` that the analysed properties
concern: the `status`/`error` fields, the QBER and security verdict (absent
on the error path), and the log trail.  The real-valued metric fields
(fidelity, detection efficiency, dark counts, key rate, suitability) and
their log entries are outside the modelled fragment. -/
structure MobileResult where
  status : String
  errorMsg : Option String
  qber : Option ℚ
  isSecure : Option Bool
  logs : List MLog
  deriving DecidableEq

/-- Message of the `ValueError` raised at quantum_device.py line 335. -/
def mobileMissingMsg : String := "Mobile data must contain bits and bases arrays"

/-- Message of the `ValueError` raised at quantum_device.py line 338. -/
def mobileLengthMsg : String := "Bits and bases arrays must have the same length"

/-- `QuantumDeviceTestbed.process_mobile_data` (quantum_device.py lines
317-421), restricted to the modelled fields.  The log list is reset, the
device id is logged, then the `bits`/`bases` arrays are validated (missing or
empty arrays, then a length mismatch, raise a `ValueError`); the `except`
block turns any such failure into a `status = 'error'` record that carries
the accumulated log trail.  On success
`qber = error_count / total_measurements` (line 350) and
`is_secure = qber < 0.11` (line 410). -/
def process_mobile_data (bits bases errors : List ℤ) (deviceId : String) :
    MobileResult :=
  let logs0 := [MLog.processingFrom deviceId]
  if bits.length = 0 ∨ bases.length = 0 then
    { status := "error", errorMsg := some mobileMissingMsg, qber := none,
      isSecure := none, logs := logs0 ++ [MLog.processingFailed mobileMissingMsg] }
  else if bits.length ≠ bases.length then
    { status := "error", errorMsg := some mobileLengthMsg, qber := none,
      isSecure := none, logs := logs0 ++ [MLog.processingFailed mobileLengthMsg] }
  else
    let q : ℚ :=
      if 0 < bits.length then (errors.length : ℚ) / (bits.length : ℚ) else 0
    { status := "success", errorMsg := none, qber := some q,
      isSecure := some (mobileIsSecure q),
      logs := logs0 ++ [MLog.receivedMeasurements bits.length] }

-- ### Simulation orchestrator

/-- Structural model of a `BB84Simulator.log_message` entry: one constructor
per `self.log_message(...)` call site of the simulator, carrying the numeric
or string payloads of the message (timestamps and the decimal formatting of
the message text are not modelled). -/
inductive LogEntry where
  | startManual
  | startAuto (rngType : String)
  | alicePrepares (n : ℕ)
  | eveIntercepts (attack : String)
  | bobMeasures
  | sifting (n : ℕ)
  | qberSecure (qber threshold : ℚ)
  | qberInsecure (qber threshold : ℚ)
  | errorsCorrectedMsg (n : ℕ)
  | privacyAmplified (n : ℕ)
  | generatedFromPhotons (nQubits photons : ℕ)
  | limitedQubits (n : ℕ)
  | usingBackend (name : String)
  deriving DecidableEq

/-- The record returned by `BB84Simulator.run_manual_simulation`
(bb84_simulator.py lines 360-385).  The three backend fidelity fields, which
depend on an unrelated jitter draw, are outside the modelled fragment. -/
structure SimResult where
  status : String
  aliceBits : List Char
  aliceBases : List Char
  bobBits : List Char
  bobBases : List Char
  eveBases : List Char
  aliceSifted : List Char
  bobSifted : List Char
  finalKey : List Char
  qber : ℚ
  isSecure : Bool
  keyGenerationRate : ℚ
  keyAccuracy : ℚ
  errorsCorrected : ℕ
  logs : List LogEntry
  eveDetectionProbability : ℚ
  channelErrorRate : ℚ
  quantumBitsGenerated : Bool
  rngType : String
  generationMethod : String
  backendUsed : String
  deriving DecidableEq

/-- The successful branch of `BB84Simulator.run_manual_simulation`
(bb84_simulator.py lines 274-385), after the length validation passed.  The
log list is reset at the start of the run (`self.simulation_logs = []`, line
276) and entries are appended stage by stage; the oracle streams `rand`
(channel draws), `eveBasisDraw`/`eveBitDraw` (Eve) and `bobBasisDraw` (Bob's
bases) supply the random choices. -/
def manualResult (bits bases : List Char) (photonRate distance noise : ℚ)
    (eveAttack errorCorrection privacyAmp backendType : String)
    (rand : ℕ → ℚ) (eveBasisDraw eveBitDraw bobBasisDraw : ℕ → Bool) :
    SimResult :=
  let logsA := [LogEntry.startManual, LogEntry.alicePrepares bits.length]
  let chan := apply_channel_effects bits distance noise rand
  let eve := simulate_eve_attack chan.1 bases eveAttack eveBasisDraw eveBitDraw
  let transmitted := if eveAttack ≠ "none" then eve.1 else chan.1
  let eveBases := if eveAttack ≠ "none" then eve.2.1 else []
  let eveDetectionProb := if eveAttack ≠ "none" then eve.2.2 else 0
  let logsB := logsA ++
    (if eveAttack ≠ "none" then [LogEntry.eveIntercepts eveAttack] else [])
  let bobBases := generate_random_bases bits.length bobBasisDraw
  let bobBits := transmitted
  let logsC := logsB ++ [LogEntry.bobMeasures]
  let sifted := sift_keys bits bases bobBits bobBases
  let logsD := logsC ++ [LogEntry.sifting sifted.1.length]
  let qber := calculate_qber sifted.1 sifted.2
  let isSecure := simulatorIsSecure qber
  let logsE := logsD ++
    [if isSecure then LogEntry.qberSecure qber qber_threshold
     else LogEntry.qberInsecure qber qber_threshold]
  let aliceCorrected :=
    if errorCorrection = "cascade" then (error_correction_cascade sifted.1 sifted.2).1
    else sifted.1
  let errorsCorrected :=
    if errorCorrection = "cascade" then (error_correction_cascade sifted.1 sifted.2).2.2
    else 0
  let logsF := logsE ++
    (if errorCorrection = "cascade" then [LogEntry.errorsCorrectedMsg errorsCorrected]
     else [])
  let finalKey :=
    if privacyAmp = "standard" then privacy_amplification aliceCorrected (1/2)
    else aliceCorrected
  let logsG := logsF ++
    (if privacyAmp = "standard" then [LogEntry.privacyAmplified finalKey.length]
     else [])
  { status := "success", aliceBits := bits, aliceBases := bases,
    bobBits := bobBits, bobBases := bobBases, eveBases := eveBases,
    aliceSifted := sifted.1, bobSifted := sifted.2, finalKey := finalKey,
    qber := qber, isSecure := isSecure,
    keyGenerationRate := (finalKey.length : ℚ) * photonRate / 1000,
    keyAccuracy := if qber < 1 then 1 - qber else 0,
    errorsCorrected := errorsCorrected, logs := logsG,
    eveDetectionProbability := eveDetectionProb, channelErrorRate := chan.2,
    quantumBitsGenerated := false, rngType := "classical",
    generationMethod := "standard", backendUsed := backendType }

/-- `BB84Simulator.run_manual_simulation` (bb84_simulator.py lines 270-385):
raises a `ValueError` (modelled as `Except.error`) when the bit and basis
strings differ in length, otherwise runs the protocol stages. -/
def run_manual_simulation (bits bases : List Char)
    (photonRate distance noise : ℚ)
    (eveAttack errorCorrection privacyAmp backendType : String)
    (rand : ℕ → ℚ) (eveBasisDraw eveBitDraw bobBasisDraw : ℕ → Bool) :
    Except String SimResult :=
  if bits.length ≠ bases.length then
    Except.error "Bits and bases strings must have the same length"
  else
    Except.ok (manualResult bits bases photonRate distance noise eveAttack
      errorCorrection privacyAmp backendType rand eveBasisDraw eveBitDraw
      bobBasisDraw)

/-- Outcome of the bit-generation phase of `run_auto_simulation`. -/
structure AutoGen where
  aliceBits : List Char
  quantumUsed : Bool
  logs : List LogEntry
  deriving DecidableEq

/-- The bit-generation phase of `BB84Simulator.run_auto_simulation`
(bb84_simulator.py lines 393-420): the log list is reset and the start
message logged, then the photon-based, quantum-backed or classical branch
generates Alice's bits, logging its own message.  The quantum tier
(`generate_quantum_random_bits`, an external-service call) is abstracted as
the oracle `quantumDraw`; the log entries produced inside that call are not
modelled. -/
def autoPhase (numQubits : ℕ) (rngType backendType generationMethod : String)
    (photonCount : ℕ) (bitDraw : ℕ → Bool)
    (quantumDraw : ℕ → List Char × Bool) : AutoGen :=
  let logs0 := [LogEntry.startAuto rngType]
  if generationMethod = "photon_based" then
    let effective := (max 4 (min 32 (pyInt ((photonCount : ℚ) * (3/10))))).toNat
    let bits := generate_random_bits effective bitDraw
    { aliceBits := bits, quantumUsed := false,
      logs := logs0 ++ [LogEntry.generatedFromPhotons bits.length photonCount] }
  else if rngType = "quantum" ∨ backendType = "real_quantum" then
    let nq := if backendType = "real_quantum" then min numQubits 4 else numQubits
    let logs1 := logs0 ++
      (if backendType = "real_quantum" then [LogEntry.limitedQubits nq] else [])
    let g := quantumDraw nq
    { aliceBits := g.1, quantumUsed := g.2,
      logs := logs1 ++
        [LogEntry.usingBackend
          (if g.2 then "real quantum device" else "quantum simulator")] }
  else
    let bits := generate_random_bits numQubits bitDraw
    { aliceBits := bits, quantumUsed := false,
      logs := logs0 ++
        [LogEntry.usingBackend
          (if backendType = "classical" then "classical mathematical"
           else "qiskit simulator")] }

/-- `BB84Simulator.run_auto_simulation` (bb84_simulator.py lines 387-444):
generates Alice's bits and bases, then delegates to
`run_manual_simulation` — which resets `self.simulation_logs` again — and
patches the generation-related fields of the returned record.  The extra
oracle `aliceBasisDraw` supplies Alice's random bases. -/
def run_auto_simulation (numQubits : ℕ) (rngType : String)
    (photonRate distance noise : ℚ)
    (eveAttack errorCorrection privacyAmp backendType generationMethod : String)
    (photonCount : ℕ) (bitDraw : ℕ → Bool) (quantumDraw : ℕ → List Char × Bool)
    (aliceBasisDraw : ℕ → Bool)
    (rand : ℕ → ℚ) (eveBasisDraw eveBitDraw bobBasisDraw : ℕ → Bool) :
    Except String SimResult :=
  let gen := autoPhase numQubits rngType backendType generationMethod
    photonCount bitDraw quantumDraw
  let aliceBases := generate_random_bases gen.aliceBits.length aliceBasisDraw
  match run_manual_simulation gen.aliceBits aliceBases photonRate distance
      noise eveAttack errorCorrection privacyAmp backendType rand eveBasisDraw
      eveBitDraw bobBasisDraw with
  | Except.ok r =>
    Except.ok { r with quantumBitsGenerated := gen.quantumUsed,
                       rngType := rngType, generationMethod := generationMethod }
  | Except.error e => Except.error e

-- ### Concrete oracle streams used by witnesses

/-- Oracle stream that always draws `true`. -/
def oracleTrue : ℕ → Bool := fun _ => true

/-- Oracle stream that always draws `false`. -/
def oracleFalse : ℕ → Bool := fun _ => false

/-- Oracle stream of `random.random()` draws that always returns `1`. -/
def oracleOne : ℕ → ℚ := fun _ => 1

/-- Oracle for the quantum tier that reports an empty classical fallback. -/
def oracleNoQuantum : ℕ → List Char × Bool := fun _ => ([], false)

/-- Concrete manual run used by the C9 witness. -/
def c9ManualRun : SimResult :=
  manualResult ['0'] ['+'] 100 0 0 "none" "cascade" "standard" "classical"
    oracleOne oracleTrue oracleTrue oracleTrue

/-- Concrete photon-scenario auto run used by the C9 witness. -/
def c9AutoRun : SimResult :=
  { manualResult
      (autoPhase 4 "classical" "classical" "photon_based" 0 oracleTrue
        oracleNoQuantum).aliceBits
      (generate_random_bases
        (autoPhase 4 "classical" "classical" "photon_based" 0 oracleTrue
          oracleNoQuantum).aliceBits.length oracleTrue)
      100 0 0 "none" "none" "none" "classical" oracleOne oracleTrue oracleTrue
      oracleTrue with
    quantumBitsGenerated :=
      (autoPhase 4 "classical" "classical" "photon_based" 0 oracleTrue
        oracleNoQuantum).quantumUsed,
    rngType := "classical", generationMethod := "photon_based" }

-- ### General helper lemmas

lemma filter_range_succ (p : ℕ → Bool) (n : ℕ) :
    (List.range (n + 1)).filter p =
      (if p 0 then [0] else []) ++ ((List.range n).filter (fun i => p (i + 1))).map (· + 1) := by
  rw [List.range_succ_eq_map, List.filter_cons, List.filter_map]
  have : (p ∘ Nat.succ) = fun i => p (i + 1) := rfl
  rw [this]
  split <;> simp

lemma sift_keys_eq_spec (aBits : List Char) :
    ∀ aBases bBits bBases, sift_keys aBits aBases bBits bBases =
      siftSpec aBits aBases bBits bBases := by
  induction aBits with
  | nil => intro aBases bBits bBases; simp [sift_keys, siftSpec, siftIndices]
  | cons a as ih =>
    intro aBases bBits bBases
    cases aBases with
    | nil => simp [sift_keys, siftSpec, siftIndices]
    | cons ab abs =>
      cases bBits with
      | nil => simp [sift_keys, siftSpec, siftIndices]
      | cons b bs =>
        cases bBases with
        | nil => simp [sift_keys, siftSpec, siftIndices]
        | cons bb bbs =>
          have h := ih abs bs bbs
          simp only [siftSpec, siftIndices] at h ⊢
          simp only [sift_keys, h, List.length_cons, Nat.succ_min_succ,
            filter_range_succ, List.getD_cons_zero, List.getD_cons_succ]
          by_cases hc : ab = bb ∧ b ≠ '?'
          · simp [hc, List.map_map, Function.comp_def]
          · simp [hc, List.map_map, Function.comp_def]

lemma sift_keys_concrete : sift_keys ['0', '1', '1', '0'] ['+', 'x', '+', 'x']
    ['0', '?', '1', '1'] ['+', '+', '+', 'x'] = (['0', '1', '0'], ['0', '1', '1']) := by
  decide

lemma countMismatches_le_left (aKey bKey : List Char) :
    countMismatches aKey bKey ≤ aKey.length := by
  have h1 := List.length_filter_le
    (fun p => decide (p.1 ≠ p.2)) (aKey.zip bKey)
  have h2 : (aKey.zip bKey).length = min aKey.length bKey.length :=
    List.length_zip ..
  unfold countMismatches
  omega

lemma countMismatches_eq_range (aKey : List Char) :
    ∀ bKey, countMismatches aKey bKey =
      ((List.range (min aKey.length bKey.length)).filter
        (fun i => decide (aKey.getD i ' ' ≠ bKey.getD i ' '))).length := by
  induction aKey with
  | nil => intro bKey; simp [countMismatches]
  | cons a as ih =>
    intro bKey
    cases bKey with
    | nil => simp [countMismatches]
    | cons b bs =>
      have h := ih bs
      simp only [countMismatches] at h
      simp only [countMismatches, List.zip_cons_cons, List.filter_cons,
        List.length_cons, Nat.succ_min_succ, filter_range_succ,
        List.getD_cons_zero, List.getD_cons_succ, h]
      by_cases hab : a = b
      · simp [hab]
        simpa using h
      · simp [hab]
        simpa using h

lemma getD_map_range {α : Type} (f : ℕ → α) (n i : ℕ) (d : α) (h : i < n) :
    ((List.range n).map f).getD i d = f i := by
  rw [List.getD_eq_getElem?_getD, List.getElem?_map, List.getElem?_range h]
  rfl

lemma generate_random_bases_getD (n i : ℕ) (draw : ℕ → Bool) (h : i < n) :
    (generate_random_bases n draw).getD i ' ' = if draw i then '+' else 'x' := by
  unfold generate_random_bases
  rw [getD_map_range _ _ _ _ h]

lemma generate_random_bases_length (n : ℕ) (draw : ℕ → Bool) :
    (generate_random_bases n draw).length = n := by
  simp [generate_random_bases]

lemma generate_random_bits_length (n : ℕ) (draw : ℕ → Bool) :
    (generate_random_bits n draw).length = n := by
  simp [generate_random_bits]

/-- C2 -- The sifter keeps position `i` (over the zipped common length of its
four inputs) exactly when `a_bases[i] == b_bases[i]` and `b_bits[i] != '?'`,
preserving order (`siftSpec` maps the increasing list of kept indices back to
the two bit strings), and its two outputs have the same length, at most each
input length. -/
theorem bb84_C2_sifter (aBits aBases bBits bBases : List Char) :
    sift_keys aBits aBases bBits bBases = siftSpec aBits aBases bBits bBases ∧
    (sift_keys aBits aBases bBits bBases).1.length =
      (sift_keys aBits aBases bBits bBases).2.length ∧
    (sift_keys aBits aBases bBits bBases).1.length ≤ aBits.length ∧
    (sift_keys aBits aBases bBits bBases).1.length ≤ aBases.length ∧
    (sift_keys aBits aBases bBits bBases).1.length ≤ bBits.length ∧
    (sift_keys aBits aBases bBits bBases).1.length ≤ bBases.length := by
  have hspec := sift_keys_eq_spec aBits aBases bBits bBases
  have hidx := List.length_filter_le
    (fun i => decide (aBases.getD i ' ' = bBases.getD i ' ' ∧ bBits.getD i ' ' ≠ '?'))
    (List.range (min (min aBits.length aBases.length) (min bBits.length bBases.length)))
  rw [List.length_range] at hidx
  refine ⟨hspec, ?_, ?_, ?_, ?_, ?_⟩ <;>
    rw [hspec] <;> simp only [siftSpec, siftIndices, List.length_map] <;> omega

/-- C4 -- The reconciler's `corrected_count` is the Hamming distance between
the inputs over the compared (zipped) positions, and whenever `a_key` is
non-empty both returned keys equal `a_key`, hence are equal to each other. -/
theorem bb84_C4_reconciler (aKey bKey : List Char) :
    (error_correction_cascade aKey bKey).2.2 =
      ((List.range (min aKey.length bKey.length)).filter
        (fun i => decide (aKey.getD i ' ' ≠ bKey.getD i ' '))).length ∧
    (aKey ≠ [] →
      (error_correction_cascade aKey bKey).1 = aKey ∧
      (error_correction_cascade aKey bKey).2.1 = aKey ∧
      (error_correction_cascade aKey bKey).1 =
        (error_correction_cascade aKey bKey).2.1) := by
  constructor
  · simp [error_correction_cascade, countMismatches_eq_range]
  · intro h
    have hpos : 0 < aKey.length := List.length_pos.mpr h
    simp [error_correction_cascade, hpos]

/-- Witness for C4 at a concrete pair of keys. -/
theorem bb84_C4_witness :
    (['0', '1'] : List Char) ≠ [] ∧
    ((error_correction_cascade ['0', '1'] ['1', '1']).1 = ['0', '1'] ∧
     (error_correction_cascade ['0', '1'] ['1', '1']).2.1 = ['0', '1'] ∧
     (error_correction_cascade ['0', '1'] ['1', '1']).1 =
       (error_correction_cascade ['0', '1'] ['1', '1']).2.1) :=
  ⟨by decide, (bb84_C4_reconciler ['0', '1'] ['1', '1']).2 (by decide)⟩

-- ### C5: privacy amplification

lemma max_one_pyInt (q : ℚ) : max 1 (pyInt q) = max 1 ⌊q⌋ := by
  unfold pyInt
  split
  · rfl
  · rename_i h
    push_neg at h
    have h1 : ⌈q⌉ ≤ ⌈(0 : ℚ)⌉ := Int.ceil_mono h.le
    have h2 : ⌊q⌋ ≤ ⌊(0 : ℚ)⌋ := Int.floor_mono h.le
    rw [Int.ceil_zero] at h1
    rw [Int.floor_zero] at h2
    omega

/-- C5 (amended) -- `privacy_amplification` always returns a prefix of its
input and maps empty input to empty output; for non-empty input the output
length is `min (len key) (max 1 ⌊len(key)·factor⌋)`, which coincides with the
claimed `max 1 ⌊len(key)·factor⌋` whenever `factor ≤ 1` (for `factor > 1`
the slice `key[:new_length]` is capped at the key length, see the
counterexample). -/
theorem bb84_C5_privacy_amended (key : List Char) (factor : ℚ) :
    (∃ t, privacy_amplification key factor ++ t = key) ∧
    (key = [] → privacy_amplification key factor = []) ∧
    (key ≠ [] →
      (privacy_amplification key factor).length =
        min key.length (max 1 ⌊(key.length : ℚ) * factor⌋).toNat) ∧
    (key ≠ [] → factor ≤ 1 →
      (privacy_amplification key factor).length =
        (max 1 ⌊(key.length : ℚ) * factor⌋).toNat) := by
  have hlen : key ≠ [] →
      (privacy_amplification key factor).length =
        min key.length (max 1 ⌊(key.length : ℚ) * factor⌋).toNat := by
    intro h
    have hpos : key.length ≠ 0 := by
      simpa [List.length_eq_zero] using h
    simp only [privacy_amplification, if_neg hpos, List.length_take,
      max_one_pyInt]
    omega
  refine ⟨?_, ?_, hlen, ?_⟩
  · unfold privacy_amplification
    split
    · rename_i h
      exact ⟨key, by simp [List.length_eq_zero.mp h]⟩
    · exact ⟨key.drop (max 1 (pyInt ((key.length : ℚ) * factor))).toNat,
        List.take_append_drop _ _⟩
  · intro h; simp [privacy_amplification, h]
  · intro h hf
    rw [hlen h]
    have hne : 0 < key.length := List.length_pos.mpr h
    have hmul : (key.length : ℚ) * factor ≤ (key.length : ℚ) := by
      calc (key.length : ℚ) * factor ≤ (key.length : ℚ) * 1 :=
            mul_le_mul_of_nonneg_left hf (by positivity)
        _ = (key.length : ℚ) := mul_one _
    have hfl : ⌊(key.length : ℚ) * factor⌋ ≤ (key.length : ℤ) := by
      calc ⌊(key.length : ℚ) * factor⌋ ≤ ⌊(key.length : ℚ)⌋ :=
            Int.floor_le_floor hmul
        _ = (key.length : ℤ) := Int.floor_natCast _
    omega

/-- C5 counterexample: at `key = "01"` and `factor = 2` the output length is
`2`, not the claimed `max(1, ⌊len(key)·factor⌋) = 4`. -/
theorem bb84_C5_counterexample :
    (privacy_amplification ['0', '1'] 2).length = 2 ∧
    (max 1 ⌊((['0', '1'] : List Char).length : ℚ) * 2⌋).toNat = 4 ∧
    (2 : ℕ) ≠ 4 := by
  have hfl : ⌊((['0', '1'] : List Char).length : ℚ) * 2⌋ = 4 := by
    norm_num
  have hpy : pyInt ((2 : ℚ) * 2) = 4 := by
    rw [pyInt, if_pos (by norm_num)]
    norm_num
  refine ⟨?_, by rw [hfl]; decide, by decide⟩
  simp [privacy_amplification, hpy]

/-- Witness for C5 (amended) at `key = "0110"`, `factor = 1/2`. -/
theorem bb84_C5_witness :
    (['0', '1', '1', '0'] : List Char) ≠ [] ∧ (1/2 : ℚ) ≤ 1 ∧
    (privacy_amplification ['0', '1', '1', '0'] (1/2)).length =
      (max 1 ⌊((['0', '1', '1', '0'] : List Char).length : ℚ) * (1/2)⌋).toNat :=
  ⟨by decide, by norm_num,
   (bb84_C5_privacy_amended ['0', '1', '1', '0'] (1/2)).2.2.2 (by decide)
     (by norm_num)⟩

-- ### C1: QBER range

lemma calculate_qber_nonneg (aKey bKey : List Char) :
    0 ≤ calculate_qber aKey bKey := by
  unfold calculate_qber
  split
  · norm_num
  · positivity

lemma calculate_qber_le_one (aKey bKey : List Char) :
    calculate_qber aKey bKey ≤ 1 := by
  unfold calculate_qber
  split
  · exact le_rfl
  · rename_i h
    push_neg at h
    have hpos : (0 : ℚ) < (aKey.length : ℚ) := by
      exact_mod_cast Nat.pos_of_ne_zero h.1
    rw [div_le_one hpos]
    exact_mod_cast countMismatches_le_left aKey bKey

/-- C1 (amended) -- `calculate_qber` always lies in `[0, 1]` and equals `1`
when either compared key is empty; the mobile QBER
`error_count / total_measurements` of `process_mobile_data` lies in `[0, 1]`
whenever the supplied error list is no longer than the measurement list (the
code does not enforce this, see the counterexample, where the mobile QBER
exceeds 1). -/
theorem bb84_C1_qber_range_amended :
    (∀ aKey bKey : List Char,
      0 ≤ calculate_qber aKey bKey ∧ calculate_qber aKey bKey ≤ 1) ∧
    (∀ aKey bKey : List Char, aKey = [] ∨ bKey = [] →
      calculate_qber aKey bKey = 1) ∧
    (∀ (bits bases errors : List ℤ) (deviceId : String),
      bits ≠ [] → bases ≠ [] → bits.length = bases.length →
      errors.length ≤ bits.length →
      (process_mobile_data bits bases errors deviceId).qber =
          some ((errors.length : ℚ) / (bits.length : ℚ)) ∧
      0 ≤ ((errors.length : ℚ) / (bits.length : ℚ)) ∧
      ((errors.length : ℚ) / (bits.length : ℚ)) ≤ 1) := by
  refine ⟨fun a b => ⟨calculate_qber_nonneg a b, calculate_qber_le_one a b⟩,
    ?_, ?_⟩
  · intro aKey bKey h
    have hl : aKey.length = 0 ∨ bKey.length = 0 := by
      rcases h with h | h <;> simp [h]
    rw [calculate_qber, if_pos hl]
  · intro bits bases errors deviceId hb hb2 hlen herr
    have h1 : bits.length ≠ 0 := by simpa [List.length_eq_zero] using hb
    have h2 : bases.length ≠ 0 := by simpa [List.length_eq_zero] using hb2
    have hpos : 0 < bits.length := Nat.pos_of_ne_zero h1
    have hposq : (0 : ℚ) < (bits.length : ℚ) := by exact_mod_cast hpos
    refine ⟨?_, by positivity, ?_⟩
    · simp [process_mobile_data, h1, h2, hlen, hpos]
    · rw [div_le_one hposq]
      exact_mod_cast herr

/-- C1 counterexample: a mobile batch with one measurement and two reported
measurement errors yields QBER `2`, outside `[0, 1]`. -/
theorem bb84_C1_counterexample :
    (process_mobile_data [0] [0] [0, 0] "mobile").qber = some 2 ∧
    ¬ ((2 : ℚ) ≤ 1) := by
  constructor
  · norm_num [process_mobile_data]
  · norm_num

/-- Witness for C1 (amended) at concrete keys and a concrete mobile batch. -/
theorem bb84_C1_witness :
    ((0 : ℚ) ≤ calculate_qber ['0'] ['1'] ∧ calculate_qber ['0'] ['1'] ≤ 1) ∧
    calculate_qber [] ['1'] = 1 ∧
    ((process_mobile_data [0] [0] [] "m").qber =
        some (((([] : List ℤ).length : ℚ)) / ((([0] : List ℤ).length : ℚ))) ∧
      0 ≤ ((([] : List ℤ).length : ℚ) / (([0] : List ℤ).length : ℚ)) ∧
      (([] : List ℤ).length : ℚ) / (([0] : List ℤ).length : ℚ) ≤ 1) :=
  ⟨bb84_C1_qber_range_amended.1 ['0'] ['1'],
   bb84_C1_qber_range_amended.2.1 [] ['1'] (Or.inl rfl),
   bb84_C1_qber_range_amended.2.2 [0] [0] [] "m" (by decide) (by decide)
     (by decide) (by decide)⟩

-- ### C3: the 0.11 security threshold

/-- C3 -- The security verdict is `qber < 0.11` (strict, so QBER exactly
`0.11` is not secure), the same `0.11` threshold is applied by the simulator
(`qber_threshold`), the lab testbed analysis and the mobile analysis, and the
verdict fields of `run_manual_simulation` and `process_mobile_data` are
exactly this predicate applied to their computed QBER. -/
theorem bb84_C3_threshold :
    qber_threshold = 11/100 ∧
    (∀ q : ℚ, simulatorIsSecure q = true ↔ q < 11/100) ∧
    (∀ q : ℚ, simulatorIsSecure q = deviceIsSecure q ∧
      simulatorIsSecure q = mobileIsSecure q) ∧
    simulatorIsSecure (11/100) = false ∧
    (∀ (bits bases : List Char) (pr d n : ℚ) (ea ec pa bt : String)
       (rand : ℕ → ℚ) (ed eb bd : ℕ → Bool) (r : SimResult),
      run_manual_simulation bits bases pr d n ea ec pa bt rand ed eb bd =
        Except.ok r → r.isSecure = simulatorIsSecure r.qber) ∧
    (∀ (bits bases errors : List ℤ) (deviceId : String) (q : ℚ),
      (process_mobile_data bits bases errors deviceId).qber = some q →
      (process_mobile_data bits bases errors deviceId).isSecure =
        some (mobileIsSecure q)) := by
  refine ⟨rfl, ?_, ?_, ?_, ?_, ?_⟩
  · intro q
    simp [simulatorIsSecure, qber_threshold]
  · intro q
    exact ⟨rfl, rfl⟩
  · simp [simulatorIsSecure, qber_threshold]
  · intro bits bases pr d n ea ec pa bt rand ed eb bd r h
    rw [run_manual_simulation] at h
    split at h
    · exact absurd h (by simp)
    · cases h
      rfl
  · intro bits bases errors deviceId q h
    by_cases h1 : bits.length = 0 ∨ bases.length = 0
    · rw [process_mobile_data, if_pos h1] at h
      simp at h
    · by_cases h2 : bits.length ≠ bases.length
      · rw [process_mobile_data, if_neg h1, if_pos h2] at h
        simp at h
      · rw [process_mobile_data, if_neg h1, if_neg h2] at h ⊢
        simp only [Option.some.injEq] at h
        simp [← h]

/-- Witness for C3 at a concrete manual run and a concrete mobile batch. -/
theorem bb84_C3_witness :
    ((manualResult ['0'] ['+'] 100 0 0 "none" "none" "none" "classical"
        oracleOne oracleTrue oracleTrue oracleTrue).isSecure =
      simulatorIsSecure (manualResult ['0'] ['+'] 100 0 0 "none" "none" "none"
        "classical" oracleOne oracleTrue oracleTrue oracleTrue).qber) ∧
    ((process_mobile_data [0] [0] [] "m").isSecure =
      some (mobileIsSecure (((([] : List ℤ).length : ℚ)) /
        ((([0] : List ℤ).length : ℚ)))) ) :=
  ⟨bb84_C3_threshold.2.2.2.2.1 ['0'] ['+'] 100 0 0 "none" "none" "none"
      "classical" oracleOne oracleTrue oracleTrue oracleTrue _
      (by rw [run_manual_simulation]; simp),
   bb84_C3_threshold.2.2.2.2.2 [0] [0] [] "m" _
      ((bb84_C1_qber_range_amended.2.2 [0] [0] [] "m" (by decide) (by decide)
        (by decide) (by decide)).1)⟩

-- ### C6: channel safety

lemma channelLoop_errors_le (lossP noise : ℚ) (rand : ℕ → ℚ) :
    ∀ (bits : List Char) (k : ℕ),
      (channelLoop lossP noise rand bits k).2 ≤ bits.length := by
  intro bits
  induction bits with
  | nil => intro k; simp [channelLoop]
  | cons bit rest ih =>
    intro k
    rw [channelLoop]
    split
    · simpa using Nat.le_succ_of_le (ih (k + 1))
    · split
      · simpa using Nat.succ_le_succ (ih (k + 2))
      · simpa using Nat.le_succ_of_le (ih (k + 2))

/-- C6 -- For distances `≥ 0` and noise in `[0, 1]` the loss probability lies
in `[0, 0.8]`; for every input and every random stream the returned
`error_rate` lies in `[0, 1]`, and the empty input yields `error_rate = 0`
(the guarded division) rather than a division-by-zero fault. -/
theorem bb84_C6_channel_safety :
    (∀ distance noise : ℚ, 0 ≤ distance → 0 ≤ noise → noise ≤ 1 →
      0 ≤ lossProbability distance noise ∧
      lossProbability distance noise ≤ 8/10) ∧
    (∀ (bits : List Char) (distance noise : ℚ) (rand : ℕ → ℚ),
      0 ≤ (apply_channel_effects bits distance noise rand).2 ∧
      (apply_channel_effects bits distance noise rand).2 ≤ 1) ∧
    (∀ (distance noise : ℚ) (rand : ℕ → ℚ),
      (apply_channel_effects [] distance noise rand).2 = 0) := by
  refine ⟨?_, ?_, ?_⟩
  · intro distance noise hd hn _
    constructor
    · apply le_min
      · positivity
      · norm_num
    · exact min_le_right _ _
  · intro bits distance noise rand
    unfold apply_channel_effects
    split
    · rename_i hpos
      have hq : (0 : ℚ) < (bits.length : ℚ) := by exact_mod_cast hpos
      constructor
      · positivity
      · rw [div_le_one hq]
        exact_mod_cast channelLoop_errors_le _ _ _ bits 0
    · exact ⟨le_rfl, by norm_num⟩
  · intro distance noise rand
    simp [apply_channel_effects, channelLoop]

/-- Witness for C6 at concrete distance, noise, input and stream. -/
theorem bb84_C6_witness :
    ((0 : ℚ) ≤ 50 ∧ (0 : ℚ) ≤ 1/10 ∧ (1/10 : ℚ) ≤ 1) ∧
    (0 ≤ lossProbability 50 (1/10) ∧ lossProbability 50 (1/10) ≤ 8/10) ∧
    (0 ≤ (apply_channel_effects ['0', '1'] 50 (1/10) oracleOne).2 ∧
      (apply_channel_effects ['0', '1'] 50 (1/10) oracleOne).2 ≤ 1) ∧
    (apply_channel_effects [] 50 (1/10) oracleOne).2 = 0 :=
  ⟨⟨by norm_num, by norm_num, by norm_num⟩,
   bb84_C6_channel_safety.1 50 (1/10) (by norm_num) (by norm_num) (by norm_num),
   bb84_C6_channel_safety.2.1 ['0', '1'] 50 (1/10) oracleOne,
   bb84_C6_channel_safety.2.2 50 (1/10) oracleOne⟩

-- ### C7: noiseless zero-distance channel is the identity

lemma channelLoop_id (rand : ℕ → ℚ) (hr : ∀ i, 0 ≤ rand i) :
    ∀ (bits : List Char) (k : ℕ), channelLoop 0 0 rand bits k = (bits, 0) := by
  intro bits
  induction bits with
  | nil => intro k; simp [channelLoop]
  | cons bit rest ih =>
    intro k
    rw [channelLoop]
    rw [if_neg (not_lt.mpr (hr k)), if_neg (not_lt.mpr (hr (k + 1)))]
    simp [ih (k + 2)]

lemma lossProbability_zero : lossProbability 0 0 = 0 := by
  have h : (2 : ℚ)/10 * (0 / 100) + 0 = 0 := by norm_num
  rw [lossProbability, h]
  exact min_eq_left (by norm_num)

lemma apply_channel_identity (bits : List Char) (rand : ℕ → ℚ)
    (hr : ∀ i, 0 ≤ rand i) :
    apply_channel_effects bits 0 0 rand = (bits, 0) := by
  unfold apply_channel_effects
  rw [lossProbability_zero, channelLoop_id rand hr bits 0]
  split <;> simp

lemma sift_keys_self (a : List Char) :
    ∀ ab bb, (sift_keys a ab a bb).1 = (sift_keys a ab a bb).2 := by
  induction a with
  | nil => intro ab bb; simp [sift_keys]
  | cons x xs ih =>
    intro ab bb
    cases ab with
    | nil => simp [sift_keys]
    | cons b abs =>
      cases bb with
      | nil => simp [sift_keys]
      | cons c bbs =>
        rw [sift_keys]
        split
        · simp [ih abs bbs]
        · exact ih abs bbs

/-- C7 -- With `distance = 0` and `noise = 0` the channel is the identity
(every `random.random()` draw is `≥ 0`, so nothing is lost or flipped and the
error rate is `0`), and hence in a manual run with `eve_attack = 'none'`
Bob's bits equal Alice's bits and the sifted keys coincide. -/
theorem bb84_C7_noiseless (bits bases : List Char) (photonRate : ℚ)
    (ec pa bt : String) (rand : ℕ → ℚ) (ed eb bd : ℕ → Bool)
    (hr : ∀ i, 0 ≤ rand i) (hlen : bits.length = bases.length) :
    apply_channel_effects bits 0 0 rand = (bits, 0) ∧
    run_manual_simulation bits bases photonRate 0 0 "none" ec pa bt rand ed eb bd =
      Except.ok (manualResult bits bases photonRate 0 0 "none" ec pa bt rand
        ed eb bd) ∧
    (manualResult bits bases photonRate 0 0 "none" ec pa bt rand
      ed eb bd).bobBits = bits ∧
    (manualResult bits bases photonRate 0 0 "none" ec pa bt rand
      ed eb bd).channelErrorRate = 0 ∧
    (manualResult bits bases photonRate 0 0 "none" ec pa bt rand
      ed eb bd).aliceSifted =
      (manualResult bits bases photonRate 0 0 "none" ec pa bt rand
        ed eb bd).bobSifted := by
  have hch := apply_channel_identity bits rand hr
  refine ⟨hch, ?_, ?_, ?_, ?_⟩
  · rw [run_manual_simulation, if_neg (by omega)]
  · simp [manualResult, hch]
  · simp [manualResult, hch]
  · simp only [manualResult, hch]
    simp [sift_keys_self]

/-- Witness for C7 at the spec's manual scenario `bits = "0110"`,
`bases = "+x+x"`. -/
theorem bb84_C7_witness :
    (∀ i, (0 : ℚ) ≤ oracleOne i) ∧
    (['0', '1', '1', '0'] : List Char).length =
      (['+', 'x', '+', 'x'] : List Char).length ∧
    (apply_channel_effects ['0', '1', '1', '0'] 0 0 oracleOne =
        (['0', '1', '1', '0'], 0) ∧
      run_manual_simulation ['0', '1', '1', '0'] ['+', 'x', '+', 'x'] 100 0 0
          "none" "cascade" "standard" "classical" oracleOne oracleTrue
          oracleTrue oracleTrue =
        Except.ok (manualResult ['0', '1', '1', '0'] ['+', 'x', '+', 'x'] 100
          0 0 "none" "cascade" "standard" "classical" oracleOne oracleTrue
          oracleTrue oracleTrue) ∧
      (manualResult ['0', '1', '1', '0'] ['+', 'x', '+', 'x'] 100 0 0 "none"
        "cascade" "standard" "classical" oracleOne oracleTrue oracleTrue
        oracleTrue).bobBits = ['0', '1', '1', '0'] ∧
      (manualResult ['0', '1', '1', '0'] ['+', 'x', '+', 'x'] 100 0 0 "none"
        "cascade" "standard" "classical" oracleOne oracleTrue oracleTrue
        oracleTrue).channelErrorRate = 0 ∧
      (manualResult ['0', '1', '1', '0'] ['+', 'x', '+', 'x'] 100 0 0 "none"
        "cascade" "standard" "classical" oracleOne oracleTrue oracleTrue
        oracleTrue).aliceSifted =
        (manualResult ['0', '1', '1', '0'] ['+', 'x', '+', 'x'] 100 0 0 "none"
          "cascade" "standard" "classical" oracleOne oracleTrue oracleTrue
          oracleTrue).bobSifted) :=
  ⟨fun i => by norm_num [oracleOne], by decide,
   bb84_C7_noiseless ['0', '1', '1', '0'] ['+', 'x', '+', 'x'] 100 "cascade"
     "standard" "classical" oracleOne oracleTrue oracleTrue oracleTrue
     (fun i => by norm_num [oracleOne]) (by decide)⟩

-- ### C8: mobile validation failures

/-- C8 -- A mobile batch whose `bits`/`bases` arrays are missing/empty or
differ in length is rejected before any metric is computed: the returned
record has `status = 'error'`, no QBER and no security verdict, carries the
error message, and its log trail is exactly the entries accumulated up to the
failure. -/
theorem bb84_C8_mobile_validation (bits bases errors : List ℤ) (id : String)
    (h : bits = [] ∨ bases = [] ∨ bits.length ≠ bases.length) :
    (process_mobile_data bits bases errors id).status = "error" ∧
    (process_mobile_data bits bases errors id).qber = none ∧
    (process_mobile_data bits bases errors id).isSecure = none ∧
    ∃ msg, (process_mobile_data bits bases errors id).errorMsg = some msg ∧
      (process_mobile_data bits bases errors id).logs =
        [MLog.processingFrom id, MLog.processingFailed msg] := by
  by_cases h1 : bits.length = 0 ∨ bases.length = 0
  · rw [process_mobile_data, if_pos h1]
    exact ⟨rfl, rfl, rfl, mobileMissingMsg, rfl, rfl⟩
  · have h2 : bits.length ≠ bases.length := by
      rcases h with h | h | h
      · exact absurd (Or.inl (by simp [h])) h1
      · exact absurd (Or.inr (by simp [h])) h1
      · exact h
    rw [process_mobile_data, if_neg h1, if_pos h2]
    exact ⟨rfl, rfl, rfl, mobileLengthMsg, rfl, rfl⟩

/-- Witness for C8 at a concrete mismatched batch. -/
theorem bb84_C8_witness :
    (([0] : List ℤ) = [] ∨ ([0, 1] : List ℤ) = [] ∨
      ([0] : List ℤ).length ≠ ([0, 1] : List ℤ).length) ∧
    ((process_mobile_data [0] [0, 1] [] "dev").status = "error" ∧
     (process_mobile_data [0] [0, 1] [] "dev").qber = none ∧
     (process_mobile_data [0] [0, 1] [] "dev").isSecure = none ∧
     ∃ msg, (process_mobile_data [0] [0, 1] [] "dev").errorMsg = some msg ∧
       (process_mobile_data [0] [0, 1] [] "dev").logs =
         [MLog.processingFrom "dev", MLog.processingFailed msg]) :=
  ⟨by decide, bb84_C8_mobile_validation [0] [0, 1] [] "dev" (by decide)⟩

-- ### C10: intercept-resend forwarding

/-- C10 -- Under `intercept_resend` the attacker output has one symbol per
zipped position; where Eve's drawn basis matches the sender's basis the
incoming symbol is forwarded unchanged (so an undetected `'?'` passes
through), and where they differ the forwarded symbol is the fresh random bit
`'1'`/`'0'`; moreover the orchestrator feeds the post-channel sequence into
this attack: in any manual run with `eve_attack = 'intercept_resend'` Bob's
bits are exactly the attack output on the channel output. -/
theorem bb84_C10_intercept_resend (aliceBits aliceBases : List Char)
    (bd rd : ℕ → Bool) (i : ℕ)
    (hi : i < min aliceBits.length aliceBases.length) :
    (simulate_eve_attack aliceBits aliceBases "intercept_resend" bd rd).1.length =
      min aliceBits.length aliceBases.length ∧
    (simulate_eve_attack aliceBits aliceBases "intercept_resend" bd rd).1.getD i ' ' =
      (if aliceBases.getD i ' ' = (if bd i then '+' else 'x')
       then aliceBits.getD i ' '
       else if rd i then '1' else '0') ∧
    (∀ (bits bases : List Char) (pr d n : ℚ) (ec pa bt : String)
       (rand : ℕ → ℚ) (bobD : ℕ → Bool) (r : SimResult),
      run_manual_simulation bits bases pr d n "intercept_resend" ec pa bt rand
        bd rd bobD = Except.ok r →
      r.bobBits = (simulate_eve_attack (apply_channel_effects bits d n rand).1
        bases "intercept_resend" bd rd).1) := by
  have hib : i < aliceBits.length := lt_of_lt_of_le hi (min_le_left _ _)
  refine ⟨?_, ?_, ?_⟩
  · simp [simulate_eve_attack]
  · rw [simulate_eve_attack, if_neg (by decide), if_pos rfl]
    simp only
    rw [getD_map_range _ _ _ _ hi]
    rw [generate_random_bases_getD _ _ _ hib]
  · intro bits bases pr d n ec pa bt rand bobD r h
    rw [run_manual_simulation] at h
    split at h
    · exact absurd h (by simp)
    · cases h
      simp [manualResult]

/-- Witness for C10: a photon lost in the channel (symbol `'?'`) reaches Bob
as the detected bit `'1'` when Eve's basis (`'x'`) differs from the
sender's (`'+'`). -/
theorem bb84_C10_witness :
    0 < min (['?'] : List Char).length (['+'] : List Char).length ∧
    ((simulate_eve_attack ['?'] ['+'] "intercept_resend" oracleFalse
        oracleTrue).1.getD 0 ' ' =
      (if (['+'] : List Char).getD 0 ' ' = (if oracleFalse 0 then '+' else 'x')
       then (['?'] : List Char).getD 0 ' '
       else if oracleTrue 0 then '1' else '0')) ∧
    (simulate_eve_attack ['?'] ['+'] "intercept_resend" oracleFalse
        oracleTrue).1 = ['1'] :=
  ⟨by decide,
   (bb84_C10_intercept_resend ['?'] ['+'] oracleFalse oracleTrue 0
     (by decide)).2.1,
   by decide⟩

-- ### C9: the log trail

lemma manualResult_logs (bits bases : List Char) (pr d n : ℚ)
    (ea ec pa bt : String) (rand : ℕ → ℚ) (ed eb bd : ℕ → Bool) :
    (manualResult bits bases pr d n ea ec pa bt rand ed eb bd).logs.head? =
        some LogEntry.startManual ∧
    LogEntry.alicePrepares bits.length ∈
      (manualResult bits bases pr d n ea ec pa bt rand ed eb bd).logs ∧
    LogEntry.bobMeasures ∈
      (manualResult bits bases pr d n ea ec pa bt rand ed eb bd).logs ∧
    LogEntry.sifting
        (manualResult bits bases pr d n ea ec pa bt rand ed eb bd).aliceSifted.length ∈
      (manualResult bits bases pr d n ea ec pa bt rand ed eb bd).logs ∧
    (LogEntry.qberSecure
        (manualResult bits bases pr d n ea ec pa bt rand ed eb bd).qber
        qber_threshold ∈
      (manualResult bits bases pr d n ea ec pa bt rand ed eb bd).logs ∨
     LogEntry.qberInsecure
        (manualResult bits bases pr d n ea ec pa bt rand ed eb bd).qber
        qber_threshold ∈
      (manualResult bits bases pr d n ea ec pa bt rand ed eb bd).logs) ∧
    (ea ≠ "none" → LogEntry.eveIntercepts ea ∈
      (manualResult bits bases pr d n ea ec pa bt rand ed eb bd).logs) ∧
    (ec = "cascade" → LogEntry.errorsCorrectedMsg
        (manualResult bits bases pr d n ea ec pa bt rand ed eb bd).errorsCorrected ∈
      (manualResult bits bases pr d n ea ec pa bt rand ed eb bd).logs) ∧
    (pa = "standard" → LogEntry.privacyAmplified
        (manualResult bits bases pr d n ea ec pa bt rand ed eb bd).finalKey.length ∈
      (manualResult bits bases pr d n ea ec pa bt rand ed eb bd).logs) ∧
    (∀ s, LogEntry.startAuto s ∉
      (manualResult bits bases pr d n ea ec pa bt rand ed eb bd).logs) ∧
    (∀ m c, LogEntry.generatedFromPhotons m c ∉
      (manualResult bits bases pr d n ea ec pa bt rand ed eb bd).logs) ∧
    (∀ m, LogEntry.limitedQubits m ∉
      (manualResult bits bases pr d n ea ec pa bt rand ed eb bd).logs) ∧
    (∀ s, LogEntry.usingBackend s ∉
      (manualResult bits bases pr d n ea ec pa bt rand ed eb bd).logs) := by
  refine ⟨?_, ?_, ?_, ?_, ?_, ?_, ?_, ?_, ?_, ?_, ?_, ?_⟩ <;>
    simp only [manualResult]
  · simp
  · split_ifs <;> simp
  · split_ifs <;> simp
  · split_ifs <;> simp
  · split_ifs <;> simp
  · intro h; simp [h]
  · intro h; simp only [h]; split_ifs <;> simp
  · intro h; simp only [h]; split_ifs <;> simp
  · intro s; split_ifs <;> simp
  · intro m c; split_ifs <;> simp
  · intro m; split_ifs <;> simp
  · intro s; split_ifs <;> simp

lemma run_auto_ok (numQubits : ℕ) (rngType : String) (pr d n : ℚ)
    (ea ec pa bt gm : String) (pc : ℕ) (bitD : ℕ → Bool)
    (qD : ℕ → List Char × Bool) (abD : ℕ → Bool) (rand : ℕ → ℚ)
    (ed eb bd : ℕ → Bool) :
    run_auto_simulation numQubits rngType pr d n ea ec pa bt gm pc bitD qD abD
        rand ed eb bd =
      Except.ok
        { manualResult
            (autoPhase numQubits rngType bt gm pc bitD qD).aliceBits
            (generate_random_bases
              (autoPhase numQubits rngType bt gm pc bitD qD).aliceBits.length
              abD)
            pr d n ea ec pa bt rand ed eb bd with
          quantumBitsGenerated :=
            (autoPhase numQubits rngType bt gm pc bitD qD).quantumUsed,
          rngType := rngType, generationMethod := gm } := by
  rw [run_auto_simulation]
  have hlen : (autoPhase numQubits rngType bt gm pc bitD qD).aliceBits.length =
      (generate_random_bases
        (autoPhase numQubits rngType bt gm pc bitD qD).aliceBits.length
        abD).length := by
    rw [generate_random_bases_length]
  rw [run_manual_simulation, if_neg (by omega)]

/-- C9 (amended) -- Within `run_manual_simulation` the log list is reset once
at the start of the call and is append-only thereafter: its result carries
every manual-phase entry (start, preparation, optional Eve entry, Bob's
measurement, sifting, the QBER verdict, and the optional correction and
amplification entries).  In `run_auto_simulation`, however, the nested
`run_manual_simulation` call resets the log a second time, so the entries
logged during bit generation (the auto start entry, the photon-generation
entry, the backend entries) do NOT appear in the returned logs, which hold
exactly the nested manual run's entries. -/
theorem bb84_C9_logs_amended :
    (∀ (bits bases : List Char) (pr d n : ℚ) (ea ec pa bt : String)
       (rand : ℕ → ℚ) (ed eb bd : ℕ → Bool) (r : SimResult),
      run_manual_simulation bits bases pr d n ea ec pa bt rand ed eb bd =
        Except.ok r →
      r.logs.head? = some LogEntry.startManual ∧
      LogEntry.alicePrepares bits.length ∈ r.logs ∧
      LogEntry.bobMeasures ∈ r.logs ∧
      LogEntry.sifting r.aliceSifted.length ∈ r.logs ∧
      (LogEntry.qberSecure r.qber qber_threshold ∈ r.logs ∨
        LogEntry.qberInsecure r.qber qber_threshold ∈ r.logs) ∧
      (ea ≠ "none" → LogEntry.eveIntercepts ea ∈ r.logs) ∧
      (ec = "cascade" → LogEntry.errorsCorrectedMsg r.errorsCorrected ∈ r.logs) ∧
      (pa = "standard" → LogEntry.privacyAmplified r.finalKey.length ∈ r.logs) ∧
      (∀ s, LogEntry.startAuto s ∉ r.logs) ∧
      (∀ m c, LogEntry.generatedFromPhotons m c ∉ r.logs)) ∧
    (∀ (numQubits : ℕ) (rngType : String) (pr d n : ℚ)
       (ea ec pa bt gm : String) (pc : ℕ) (bitD : ℕ → Bool)
       (qD : ℕ → List Char × Bool) (abD : ℕ → Bool) (rand : ℕ → ℚ)
       (ed eb bd : ℕ → Bool) (r : SimResult),
      run_auto_simulation numQubits rngType pr d n ea ec pa bt gm pc bitD qD
          abD rand ed eb bd = Except.ok r →
      r.logs =
        (manualResult (autoPhase numQubits rngType bt gm pc bitD qD).aliceBits
          (generate_random_bases
            (autoPhase numQubits rngType bt gm pc bitD qD).aliceBits.length abD)
          pr d n ea ec pa bt rand ed eb bd).logs ∧
      r.logs.head? = some LogEntry.startManual ∧
      (∀ s, LogEntry.startAuto s ∉ r.logs) ∧
      (∀ m c, LogEntry.generatedFromPhotons m c ∉ r.logs) ∧
      (∀ m, LogEntry.limitedQubits m ∉ r.logs) ∧
      (∀ s, LogEntry.usingBackend s ∉ r.logs)) := by
  constructor
  · intro bits bases pr d n ea ec pa bt rand ed eb bd r h
    rw [run_manual_simulation] at h
    split at h
    · exact absurd h (by simp)
    · cases h
      have hm := manualResult_logs bits bases pr d n ea ec pa bt rand ed eb bd
      exact ⟨hm.1, hm.2.1, hm.2.2.1, hm.2.2.2.1, hm.2.2.2.2.1, hm.2.2.2.2.2.1,
        hm.2.2.2.2.2.2.1, hm.2.2.2.2.2.2.2.1, hm.2.2.2.2.2.2.2.2.1,
        hm.2.2.2.2.2.2.2.2.2.1⟩
  · intro numQubits rngType pr d n ea ec pa bt gm pc bitD qD abD rand ed eb bd
      r h
    rw [run_auto_ok] at h
    cases h
    have hm := manualResult_logs
      (autoPhase numQubits rngType bt gm pc bitD qD).aliceBits
      (generate_random_bases
        (autoPhase numQubits rngType bt gm pc bitD qD).aliceBits.length abD)
      pr d n ea ec pa bt rand ed eb bd
    exact ⟨rfl, hm.1, hm.2.2.2.2.2.2.2.2.1, hm.2.2.2.2.2.2.2.2.2.1,
      hm.2.2.2.2.2.2.2.2.2.2.1, hm.2.2.2.2.2.2.2.2.2.2.2⟩

lemma autoPhase_photon_concrete :
    autoPhase 4 "classical" "classical" "photon_based" 0 oracleTrue
        oracleNoQuantum =
      { aliceBits := ['1', '1', '1', '1'], quantumUsed := false,
        logs := [LogEntry.startAuto "classical",
          LogEntry.generatedFromPhotons 4 0] } := by
  have hpy : pyInt (((0 : ℕ) : ℚ) * (3/10)) = 0 := by
    rw [pyInt, if_pos (by norm_num)]
    norm_num
  have h1 : (max 4 (min 32 (pyInt (((0 : ℕ) : ℚ) * (3/10))))).toNat = 4 := by
    rw [hpy]; decide
  have h2 : generate_random_bits 4 oracleTrue = ['1', '1', '1', '1'] := by
    decide
  rw [autoPhase, if_pos rfl]
  simp only [h1, h2]
  rfl

/-- C9 counterexample: in a concrete photon-scenario auto run the
bit-generation phase logs the photon-generation entry, but the returned
record's logs do not contain it (the nested manual simulation reset the log
again); the result holds only the manual-phase entries. -/
theorem bb84_C9_counterexample :
    LogEntry.generatedFromPhotons 4 0 ∈
      (autoPhase 4 "classical" "classical" "photon_based" 0 oracleTrue
        oracleNoQuantum).logs ∧
    (run_auto_simulation 4 "classical" 100 0 0 "none" "none" "none"
        "classical" "photon_based" 0 oracleTrue oracleNoQuantum oracleTrue
        oracleOne oracleTrue oracleTrue oracleTrue).map SimResult.logs =
      Except.ok [LogEntry.startManual, LogEntry.alicePrepares 4,
        LogEntry.bobMeasures, LogEntry.sifting 4,
        LogEntry.qberSecure 0 qber_threshold] ∧
    LogEntry.generatedFromPhotons 4 0 ∉
      ([LogEntry.startManual, LogEntry.alicePrepares 4, LogEntry.bobMeasures,
        LogEntry.sifting 4,
        LogEntry.qberSecure 0 qber_threshold] : List LogEntry) := by
  refine ⟨?_, ?_, ?_⟩
  · rw [autoPhase_photon_concrete]
    simp
  · rw [run_auto_ok, autoPhase_photon_concrete]
    have hch := apply_channel_identity ['1', '1', '1', '1'] oracleOne
      (fun i => by norm_num [oracleOne])
    have hbases : generate_random_bases 4 oracleTrue =
        ['+', '+', '+', '+'] := by decide
    have hsift : sift_keys ['1', '1', '1', '1'] ['+', '+', '+', '+']
        ['1', '1', '1', '1'] ['+', '+', '+', '+'] =
        (['1', '1', '1', '1'], ['1', '1', '1', '1']) := by decide
    have hcm : countMismatches ['1', '1', '1', '1'] ['1', '1', '1', '1'] = 0 := by
      decide
    have hq : calculate_qber ['1', '1', '1', '1'] ['1', '1', '1', '1'] = 0 := by
      rw [calculate_qber, if_neg (by decide), hcm]
      norm_num
    have hsec : simulatorIsSecure 0 = true := by
      simp only [simulatorIsSecure, qber_threshold, decide_eq_true_eq]
      norm_num
    simp [manualResult, hch, hbases, hsift, hq, hsec, Except.map]
  · simp

/-- Witness for C9 (amended) at a concrete manual run and a concrete
photon-scenario auto run. -/
theorem bb84_C9_witness :
    (run_manual_simulation ['0'] ['+'] 100 0 0 "none" "cascade" "standard"
        "classical" oracleOne oracleTrue oracleTrue oracleTrue =
      Except.ok c9ManualRun) ∧
    (c9ManualRun.logs.head? = some LogEntry.startManual ∧
     LogEntry.alicePrepares (['0'] : List Char).length ∈ c9ManualRun.logs ∧
     LogEntry.bobMeasures ∈ c9ManualRun.logs ∧
     LogEntry.sifting c9ManualRun.aliceSifted.length ∈ c9ManualRun.logs ∧
     (LogEntry.qberSecure c9ManualRun.qber qber_threshold ∈ c9ManualRun.logs ∨
       LogEntry.qberInsecure c9ManualRun.qber qber_threshold ∈
         c9ManualRun.logs) ∧
     ("none" ≠ "none" → LogEntry.eveIntercepts "none" ∈ c9ManualRun.logs) ∧
     ("cascade" = "cascade" →
       LogEntry.errorsCorrectedMsg c9ManualRun.errorsCorrected ∈
         c9ManualRun.logs) ∧
     ("standard" = "standard" →
       LogEntry.privacyAmplified c9ManualRun.finalKey.length ∈
         c9ManualRun.logs) ∧
     (∀ s, LogEntry.startAuto s ∉ c9ManualRun.logs) ∧
     (∀ m c, LogEntry.generatedFromPhotons m c ∉ c9ManualRun.logs)) ∧
    (run_auto_simulation 4 "classical" 100 0 0 "none" "none" "none"
        "classical" "photon_based" 0 oracleTrue oracleNoQuantum oracleTrue
        oracleOne oracleTrue oracleTrue oracleTrue = Except.ok c9AutoRun) ∧
    (c9AutoRun.logs =
       (manualResult
         (autoPhase 4 "classical" "classical" "photon_based" 0 oracleTrue
           oracleNoQuantum).aliceBits
         (generate_random_bases
           (autoPhase 4 "classical" "classical" "photon_based" 0 oracleTrue
             oracleNoQuantum).aliceBits.length oracleTrue)
         100 0 0 "none" "none" "none" "classical" oracleOne oracleTrue
         oracleTrue oracleTrue).logs ∧
     c9AutoRun.logs.head? = some LogEntry.startManual ∧
     (∀ s, LogEntry.startAuto s ∉ c9AutoRun.logs) ∧
     (∀ m c, LogEntry.generatedFromPhotons m c ∉ c9AutoRun.logs) ∧
     (∀ m, LogEntry.limitedQubits m ∉ c9AutoRun.logs) ∧
     (∀ s, LogEntry.usingBackend s ∉ c9AutoRun.logs)) :=
  ⟨by rw [run_manual_simulation]; simp [c9ManualRun],
   bb84_C9_logs_amended.1 ['0'] ['+'] 100 0 0 "none" "cascade" "standard"
     "classical" oracleOne oracleTrue oracleTrue oracleTrue c9ManualRun
     (by rw [run_manual_simulation]; simp [c9ManualRun]),
   run_auto_ok 4 "classical" 100 0 0 "none" "none" "none" "classical"
     "photon_based" 0 oracleTrue oracleNoQuantum oracleTrue oracleOne
     oracleTrue oracleTrue oracleTrue,
   bb84_C9_logs_amended.2 4 "classical" 100 0 0 "none" "none" "none"
     "classical" "photon_based" 0 oracleTrue oracleNoQuantum oracleTrue
     oracleOne oracleTrue oracleTrue oracleTrue c9AutoRun
     (run_auto_ok 4 "classical" 100 0 0 "none" "none" "none" "classical"
       "photon_based" 0 oracleTrue oracleNoQuantum oracleTrue oracleOne
       oracleTrue oracleTrue oracleTrue)⟩
